import Mathlib

/-!
Verification of the FileHashCalculator streaming hash engine.

The definitions below are a shallow embedding of `src/js/hash-calculator.js`,
`src/js/file-handler.js`, `src/js/utils.js` and the unnamed UI module.
JavaScript numbers are modelled as `Int`: every numeric value arising in the
embedded code paths stays well inside the interval where IEEE doubles are
exact (|value| < 2^53), so exact integer arithmetic is faithful.  The 32-bit
coercions performed by the JavaScript bitwise operators (`ToInt32`,
`ToUint32`) are made explicit.
-/

/-- `ToUint32` of a JS number that is an exact integer: reduce modulo 2^32
into `[0, 2^32)`. -/
def toUint32 (x : Int) : Int := Int.emod x 4294967296

/-- `ToInt32` of a JS number that is an exact integer: reduce modulo 2^32
into `[-2^31, 2^31)`. -/
def toInt32 (x : Int) : Int :=
  let u := Int.emod x 4294967296
  if u < 2147483648 then u else u - 4294967296

/-- JS `a & b`: both operands coerced with `ToInt32`, bitwise and on the
32-bit patterns, result read back as a signed 32-bit integer. -/
def jsAnd (a b : Int) : Int :=
  toInt32 (Int.ofNat (Nat.land (toUint32 a).toNat (toUint32 b).toNat))

/-- JS `a | b`. -/
def jsOr (a b : Int) : Int :=
  toInt32 (Int.ofNat (Nat.lor (toUint32 a).toNat (toUint32 b).toNat))

/-- JS `a ^ b`. -/
def jsXor (a b : Int) : Int :=
  toInt32 (Int.ofNat (Nat.xor (toUint32 a).toNat (toUint32 b).toNat))

/-- JS `~a`: complement of the 32-bit pattern, read back signed. -/
def jsNot (a : Int) : Int :=
  toInt32 (Int.ofNat (4294967295 - (toUint32 a).toNat))

/-- JS `a << s`: shift the 32-bit pattern left (shift count masked to 5 bits),
result signed 32-bit. -/
def jsShl (a : Int) (s : Nat) : Int :=
  toInt32 (Int.ofNat ((toUint32 a).toNat * 2 ^ (s % 32) % 4294967296))

/-- JS `a >>> s`: unsigned right shift, result in `[0, 2^32)`. -/
def jsShrU (a : Int) (s : Nat) : Int :=
  Int.ofNat ((toUint32 a).toNat / 2 ^ (s % 32))

/-- JS `a >> s`: arithmetic right shift of the signed 32-bit value, which is
floor division by the corresponding power of two. -/
def jsShrS (a : Int) (s : Nat) : Int :=
  Int.fdiv (toInt32 a) (2 ^ (s % 32))

/-- Model of `TypedArray.prototype.set(src, offset)` on a fixed-length array:
overwrite `src.length` entries of `target` starting at `offset`.  All call
sites in the embedded code write within bounds. -/
def listSet (target : List Int) (offset : Nat) (src : List Int) : List Int :=
  target.take offset ++ src ++ target.drop (offset + src.length)

/-- Little-endian byte serialization of a 32-bit value, as produced by
`DataView.setUint32(_, _, true)`. -/
def u32LEBytes (x : Nat) : List Int :=
  [Int.ofNat (x % 256), Int.ofNat (x / 256 % 256),
   Int.ofNat (x / 65536 % 256), Int.ofNat (x / 16777216 % 256)]

/-! ## The MD5 engine (`HashCalculator.md5*` in `src/js/hash-calculator.js`) -/

/-- `md5FF` (hash-calculator.js:657-660): `a += ((b & c) | (~b & d)) + x + t;
return ((a << s) | (a >>> (32 - s))) + b;`. -/
def md5FF (a b c d x : Int) (s : Nat) (t : Int) : Int :=
  let a1 := a + (jsOr (jsAnd b c) (jsAnd (jsNot b) d) + x + t)
  jsOr (jsShl a1 s) (jsShrU a1 (32 - s)) + b

/-- `md5GG` (hash-calculator.js:662-665). -/
def md5GG (a b c d x : Int) (s : Nat) (t : Int) : Int :=
  let a1 := a + (jsOr (jsAnd b d) (jsAnd c (jsNot d)) + x + t)
  jsOr (jsShl a1 s) (jsShrU a1 (32 - s)) + b

/-- `md5HH` (hash-calculator.js:667-670). -/
def md5HH (a b c d x : Int) (s : Nat) (t : Int) : Int :=
  let a1 := a + (jsXor (jsXor b c) d + x + t)
  jsOr (jsShl a1 s) (jsShrU a1 (32 - s)) + b

/-- `md5II` (hash-calculator.js:672-675). -/
def md5II (a b c d x : Int) (s : Nat) (t : Int) : Int :=
  let a1 := a + (jsXor c (jsOr b (jsNot d)) + x + t)
  jsOr (jsShl a1 s) (jsShrU a1 (32 - s)) + b

/-- Decoding of message word `x[i]` in `md5Transform` (hash-calculator.js:565-570):
four block bytes combined little-endian with `& 0xFF`, `<<` and `|`, stored
into a `Uint32Array` (hence the outer `ToUint32`). -/
def md5Word (block : List Int) (i : Nat) : Int :=
  toUint32 (jsOr (jsOr (jsOr (jsAnd (block.getD (i * 4) 0) 255)
    (jsShl (jsAnd (block.getD (i * 4 + 1) 0) 255) 8))
    (jsShl (jsAnd (block.getD (i * 4 + 2) 0) 255) 16))
    (jsShl (jsAnd (block.getD (i * 4 + 3) 0) 255) 24))

/-- `md5Transform` (hash-calculator.js:561-654): one 64-byte block round.
`state` is the `Uint32Array` of four state words (entries in `[0, 2^32)`);
the returned list is the updated array (`state[i] += v` stores `ToUint32`). -/
def md5Transform (state block : List Int) : List Int :=
  let x := fun i => md5Word block i
  let s0 := state.getD 0 0
  let s1 := state.getD 1 0
  let s2 := state.getD 2 0
  let s3 := state.getD 3 0
  let a := s0
  let b := s1
  let c := s2
  let d := s3
  let a := md5FF a b c d (x 0) 7 0xD76AA478
  let d := md5FF d a b c (x 1) 12 0xE8C7B756
  let c := md5FF c d a b (x 2) 17 0x242070DB
  let b := md5FF b c d a (x 3) 22 0xC1BDCEEE
  let a := md5FF a b c d (x 4) 7 0xF57C0FAF
  let d := md5FF d a b c (x 5) 12 0x4787C62A
  let c := md5FF c d a b (x 6) 17 0xA8304613
  let b := md5FF b c d a (x 7) 22 0xFD469501
  let a := md5FF a b c d (x 8) 7 0x698098D8
  let d := md5FF d a b c (x 9) 12 0x8B44F7AF
  let c := md5FF c d a b (x 10) 17 0xFFFF5BB1
  let b := md5FF b c d a (x 11) 22 0x895CD7BE
  let a := md5FF a b c d (x 12) 7 0x6B901122
  let d := md5FF d a b c (x 13) 12 0xFD987193
  let c := md5FF c d a b (x 14) 17 0xA679438E
  let b := md5FF b c d a (x 15) 22 0x49B40821
  let a := md5GG a b c d (x 1) 5 0xF61E2562
  let d := md5GG d a b c (x 6) 9 0xC040B340
  let c := md5GG c d a b (x 11) 14 0x265E5A51
  let b := md5GG b c d a (x 0) 20 0xE9B6C7AA
  let a := md5GG a b c d (x 5) 5 0xD62F105D
  let d := md5GG d a b c (x 10) 9 0x02441453
  let c := md5GG c d a b (x 15) 14 0xD8A1E681
  let b := md5GG b c d a (x 4) 20 0xE7D3FBC8
  let a := md5GG a b c d (x 9) 5 0x21E1CDE6
  let d := md5GG d a b c (x 14) 9 0xC33707D6
  let c := md5GG c d a b (x 3) 14 0xF4D50D87
  let b := md5GG b c d a (x 8) 20 0x455A14ED
  let a := md5GG a b c d (x 13) 5 0xA9E3E905
  let d := md5GG d a b c (x 2) 9 0xFCEFA3F8
  let c := md5GG c d a b (x 7) 14 0x676F02D9
  let b := md5GG b c d a (x 12) 20 0x8D2A4C8A
  let a := md5HH a b c d (x 5) 4 0xFFFA3942
  let d := md5HH d a b c (x 8) 11 0x8771F681
  let c := md5HH c d a b (x 11) 16 0x6D9D6122
  let b := md5HH b c d a (x 14) 23 0xFDE5380C
  let a := md5HH a b c d (x 1) 4 0xA4BEEA44
  let d := md5HH d a b c (x 4) 11 0x4BDECFA9
  let c := md5HH c d a b (x 7) 16 0xF6BB4B60
  let b := md5HH b c d a (x 10) 23 0xBEBFBC70
  let a := md5HH a b c d (x 13) 4 0x289B7EC6
  let d := md5HH d a b c (x 0) 11 0xEAA127FA
  let c := md5HH c d a b (x 3) 16 0xD4EF3085
  let b := md5HH b c d a (x 6) 23 0x04881D05
  let a := md5HH a b c d (x 9) 4 0xD9D4D039
  let d := md5HH d a b c (x 12) 11 0xE6DB99E5
  let c := md5HH c d a b (x 15) 16 0x1FA27CF8
  let b := md5HH b c d a (x 2) 23 0xC4AC5665
  let a := md5II a b c d (x 0) 6 0xF4292244
  let d := md5II d a b c (x 7) 10 0x432AFF97
  let c := md5II c d a b (x 14) 15 0xAB9423A7
  let b := md5II b c d a (x 5) 21 0xFC93A039
  let a := md5II a b c d (x 12) 6 0x655B59C3
  let d := md5II d a b c (x 3) 10 0x8F0CCC92
  let c := md5II c d a b (x 10) 15 0xFFEFF47D
  let b := md5II b c d a (x 1) 21 0x85845DD1
  let a := md5II a b c d (x 8) 6 0x6FA87E4F
  let d := md5II d a b c (x 15) 10 0xFE2CE6E0
  let c := md5II c d a b (x 6) 15 0xA3014314
  let b := md5II b c d a (x 13) 21 0x4E0811A1
  let a := md5II a b c d (x 4) 6 0xF7537E82
  let d := md5II d a b c (x 11) 10 0xBD3AF235
  let c := md5II c d a b (x 2) 15 0x2AD7D2BB
  let b := md5II b c d a (x 9) 21 0xEB86D391
  [toUint32 (s0 + a), toUint32 (s1 + b), toUint32 (s2 + c), toUint32 (s3 + d)]

/-- The `while (bitsProcessed + 64 <= data.length)` loop of `md5Update`
(hash-calculator.js:503-506): transform `n` successive 64-byte blocks taken
from the front of `data`.  `n` is the number of loop iterations. -/
def md5Blocks : Nat → List Int → List Int → List Int
  | 0, hash, _ => hash
  | n + 1, hash, data => md5Blocks n (md5Transform hash (data.take 64)) (data.drop 64)

/-- The MD5 accumulator object produced by `md5Init` and threaded through
`md5Update`/`md5Final`: the four state words (`Uint32Array(4)`), the bit
counter (a JS number), and the 64-byte partial-block buffer (`Uint8Array(64)`,
stale bytes beyond the logical fill level included). -/
structure MD5Ctx where
  state : List Int
  count : Int
  buffer : List Int
deriving Repr, DecidableEq

/-- `md5Init` (hash-calculator.js:472-478). -/
def md5Init : MD5Ctx :=
  { state := [0x67452301, 0xEFCDAB89, 0x98BADCFE, 0x10325476]
    count := 0
    buffer := List.replicate 64 0 }

/-- `md5Update` (hash-calculator.js:481-515), with the in-place mutations made
explicit.  `bufferIndex` is computed from the counter before the counter is
bumped by `data.length << 3` (a 32-bit shift, faithfully modelled). -/
def md5Update (st : MD5Ctx) (data : List Int) : MD5Ctx :=
  let bufferIndex0 := (jsAnd (jsShrS st.count 3) 63).toNat
  let step1 : List Int × List Int × Nat :=
    if 0 < bufferIndex0 then
      let needed := min data.length (64 - bufferIndex0)
      let buf1 := listSet st.buffer bufferIndex0 (data.take needed)
      if bufferIndex0 + needed = 64 then (md5Transform st.state buf1, buf1, needed)
      else (st.state, buf1, needed)
    else (st.state, st.buffer, 0)
  let bp := step1.2.2
  let nBlocks := (data.length - bp) / 64
  let hash2 := md5Blocks nBlocks step1.1 (data.drop bp)
  let bp2 := bp + 64 * nBlocks
  let buf2 := if bp2 < data.length then listSet step1.2.1 0 (data.drop bp2) else step1.2.1
  { state := hash2
    count := st.count + jsShl (Int.ofNat data.length) 3
    buffer := buf2 }

/-- The eight length bytes appended by `md5Final` (hash-calculator.js:540-543):
`setUint32(0, count & 0xFFFFFFFF, true)` stores the low 32 bits of the
counter, `setUint32(4, (count / 0x100000000) & 0xFFFFFFFF, true)` stores the
32-bit truncation of the exact float quotient `count / 2^32`. -/
def md5LengthBytes (count : Int) : List Int :=
  u32LEBytes (toUint32 count).toNat ++ u32LEBytes (toUint32 (Int.tdiv count 4294967296)).toNat

/-- `md5Final` (hash-calculator.js:518-558).  Returns the 16 digest bytes
together with the accumulator as the in-place mutations leave it (the state
words and buffer are transformed/overwritten; the counter is untouched). -/
def md5Final (st : MD5Ctx) : List Int × MD5Ctx :=
  let idx0 := (jsAnd (jsShrS st.count 3) 63).toNat
  let buf1 := listSet st.buffer idx0 [0x80]
  let idx1 := idx0 + 1
  let hb : List Int × List Int × Nat :=
    if 56 < idx1 then
      let b := listSet buf1 idx1 (List.replicate (64 - idx1) 0)
      (md5Transform st.state b, b, 0)
    else (st.state, buf1, idx1)
  let buf3 := listSet hb.2.1 hb.2.2 (List.replicate (56 - hb.2.2) 0)
  let buf4 := listSet buf3 56 (md5LengthBytes st.count)
  let hash2 := md5Transform hb.1 buf4
  let word4LE := fun (h : Int) =>
    [jsAnd h 255, jsAnd (jsShrS h 8) 255, jsAnd (jsShrS h 16) 255, jsAnd (jsShrS h 24) 255]
  (word4LE (hash2.getD 0 0) ++ word4LE (hash2.getD 1 0) ++
     word4LE (hash2.getD 2 0) ++ word4LE (hash2.getD 3 0),
   { state := hash2, count := st.count, buffer := buf4 })

/-- One-shot MD5 digest bytes: `md5Init`, a single `md5Update`, `md5Final`. -/
def md5DigestBytes (msg : List Int) : List Int :=
  (md5Final (md5Update md5Init msg)).1

/-- One lowercase hex digit, as produced by `Number.prototype.toString(16)`
for a value in `[0, 16)`. -/
def hexDigit (n : Nat) : Char :=
  if n < 10 then Char.ofNat (48 + n) else Char.ofNat (87 + n)

/-- `bufferToHex` (hash-calculator.js:22-31) for one byte:
`bytes[i].toString(16).padStart(2, '0')`. -/
def byteToHex (b : Int) : List Char :=
  [hexDigit (b.toNat / 16), hexDigit (b.toNat % 16)]

/-- `bufferToHex` (hash-calculator.js:22-31), `format = 'lowercase'`. -/
def bufferToHex (bytes : List Int) : String :=
  String.mk (bytes.map byteToHex).flatten

/-- Lowercase hex MD5 digest of a byte sequence through the full
`md5Init`/`md5Update`/`md5Final`/`bufferToHex` pipeline. -/
def md5Hex (msg : List Int) : String :=
  bufferToHex (md5DigestBytes msg)

/-- `TextEncoder.encode` restricted to ASCII strings (all inputs used by the
claims are ASCII, where UTF-8 is the identity on code points). -/
def asciiBytes (s : String) : List Int :=
  s.data.map (fun c => Int.ofNat c.toNat)

/-! ## Hash-object dispatch (`createHashInstance`, `updateHash`, `finalizeHash`) -/

/-- The hash object created by `createHashInstance`
(hash-calculator.js:212-255): either a Web-Crypto delegation record
(`{algorithm, type: 'crypto', buffer}`) or a JS MD5 accumulator
(`{algorithm: 'MD5', type: 'js', state}`). -/
inductive HashObj where
  | crypto (algorithm : String) (buffer : List Int)
  | js (st : MD5Ctx)
deriving Repr, DecidableEq

/-- `finalizeHash` (hash-calculator.js:288-302), with the digest paired with
the mutated hash object.  The `'crypto'` branch calls the platform one-shot
digest over the accumulated buffer (modelled abstractly by `cryptoDigest`,
an arbitrary platform function passed as a parameter); the `'js'` MD5 branch
calls `md5Final`.  Neither branch inspects any finalized flag — no such flag
exists on the object. -/
def finalizeHash (cryptoDigest : String → List Int → List Int)
    (h : HashObj) : Except String (List Int × HashObj) :=
  match h with
  | .crypto alg buf => .ok (cryptoDigest alg buf, .crypto alg buf)
  | .js st =>
    let r := md5Final st
    .ok (r.1, .js r.2)

/-- `isAlgorithmSupported` (hash-calculator.js:452-464). -/
def supportedAlgorithms : List String :=
  ["md5", "sha1", "sha256", "sha512", "hmac-md5", "hmac-sha1", "hmac-sha256"]

/-- `isAlgorithmSupported` (hash-calculator.js:452-464):
`supportedAlgorithms.includes(algorithm)`. -/
def isAlgorithmSupported (algorithm : String) : Bool :=
  supportedAlgorithms.contains algorithm

/-! ## HMAC (`calculateHMAC`, hash-calculator.js:312-363)

`calculateHMAC` encodes the key (default empty), reads the whole input, and
delegates the keyed digest to the platform (`crypto.subtle.importKey` /
`crypto.subtle.sign('HMAC', ...)`), which is not repository code. -/

/-- Modelled from the spec: the platform HMAC operation that
`crypto.subtle.sign('HMAC', ...)` performs is not in the repository; §4.4
specifies it as `H((K' ⊕ opad) ‖ H((K' ⊕ ipad) ‖ message))` with `K'` the key
zero-padded (or pre-hashed when longer than a block) to the base algorithm's
block size.  Instantiated here for base algorithm MD5 (block size 64, RFC 2104
pad bytes `0x36`/`0x5C`), using the repository's own MD5 engine as `H`. -/
def hmacMd5Bytes (key msg : List Int) : List Int :=
  let k0 := if 64 < key.length then md5DigestBytes key else key
  let kp := k0 ++ List.replicate (64 - k0.length) 0
  let ki := kp.map (fun b => Int.ofNat (Nat.xor b.toNat 54))
  let ko := kp.map (fun b => Int.ofNat (Nat.xor b.toNat 92))
  md5DigestBytes (ko ++ md5DigestBytes (ki ++ msg))

/-- The `hmac-md5` result hex string for string key and message, following
`calculateHMAC`: `TextEncoder.encode` on the key (empty default), the keyed
digest over the whole message, `bufferToHex` in lowercase format. -/
def hmacMd5Hex (key msg : String) : String :=
  bufferToHex (hmacMd5Bytes (asciiBytes key) (asciiBytes msg))

/-! ## Multi-algorithm orchestration (`calculateMultipleHashes`,
hash-calculator.js:175-205)

The loop runs `calculateHash` once per requested algorithm, in request order;
iterations share no accumulator state.  `compute` abstracts what one
`calculateHash` call resolves or rejects with for a given algorithm over the
fixed input.  A rejected computation is caught and recorded as the failure
marker string `` `计算失败: ${error.message}` ``; the loop then continues. -/

/-- The failure marker written into an algorithm's result slot. -/
def failureMarker (message : String) : String :=
  "计算失败: " ++ message

/-- `calculateMultipleHashes`: the `results` object, keyed by algorithm in
request order (JS object string keys preserve insertion order; the digest
value stored for an algorithm depends only on that algorithm's own
`calculateHash` outcome). -/
def calculateMultipleHashes (compute : String → Except String String)
    (algorithms : List String) : List (String × String) :=
  algorithms.map (fun a =>
    (a, match compute a with
        | .ok h => h
        | .error e => failureMarker e))

/-! ## Chunked read traces (`calculateHash`, hash-calculator.js:111-161)

For one supported algorithm, `calculateHash` reads the input itself: the
small-input path (`file.size <= chunkSize`) issues one full read, the
large-input path reads `file.slice(offset, offset + chunkSize)` repeatedly,
advancing `offset` by the bytes actually returned, until `offset` reaches
`file.size`.  (The `hmac-` path reads through `readFileAsArrayBuffer`,
hash-calculator.js:399-444, which issues the identical read sequence.)
A read is recorded as `(offset, length)`. -/

/-- The large-input read loop (`processChunk`).  Fuel bounds the recursion;
`size` fuel suffices whenever the chunk size is positive. -/
def readLoop : Nat → Nat → Nat → Nat → List (Nat × Nat)
  | 0, _, _, _ => []
  | fuel + 1, size, chunk, offset =>
    let len := min chunk (size - offset)
    (offset, len) ::
      (if offset + len < size then readLoop fuel size chunk (offset + len) else [])

/-- The reads one `calculateHash` call performs over an input of `size` bytes
at chunk size `chunk`. -/
def calculateHashReads (size chunk : Nat) : List (Nat × Nat) :=
  if size ≤ chunk then [(0, size)] else readLoop size size chunk 0

/-- The read trace of `calculateMultipleHashes`: the per-algorithm loop calls
`calculateHash` afresh for each algorithm, so each supported algorithm
contributes one complete chunked traversal of the input, one algorithm after
the other (an unsupported algorithm is rejected before any read). -/
def multiHashReads (algorithms : List String) (size chunk : Nat) :
    List (String × Nat × Nat) :=
  algorithms.flatMap (fun a =>
    if isAlgorithmSupported a then (calculateHashReads size chunk).map (fun r => (a, r))
    else [])

/-- Number of chunked traversals begun in a read trace: a traversal is
started by a read at offset 0. -/
def traversalCount (trace : List (String × Nat × Nat)) : Nat :=
  (trace.filter (fun r => r.2.1 == 0)).length

/-! ## Progress events (`calculateHash`, hash-calculator.js:111-147)

The small-input path fires one progress event with
`processed = total = file.size`; the large-input loop fires one event per
chunk with the accumulated `processedBytes`.  Only the `processed` value is
tracked (the `total` field is constantly `file.size`). -/

/-- The `processed` values of the large-input loop's progress events. -/
def progressAux : Nat → Nat → Nat → Nat → List Nat
  | 0, _, _, _ => []
  | fuel + 1, processed, size, chunk =>
    let p := processed + min chunk (size - processed)
    p :: (if p < size then progressAux fuel p size chunk else [])

/-- The `processed` values delivered to `onProgress` across one
`calculateHash` traversal. -/
def progressEvents (size chunk : Nat) : List Nat :=
  if size ≤ chunk then [size] else progressAux size 0 size chunk

/-! ## Digest grouping (`compareMultipleFiles`, file-handler.js:444-520)

For one algorithm, the batch is reduced into the plain object `hashGroups`
keyed by the digest string exactly as stored (`hashGroups[hash].push(name)`);
a fresh key is appended (JS objects preserve insertion order for these
non-array-index string keys), an existing key has the file name appended to
its list.  `allSame` is `Object.keys(hashGroups).length === 1`.  The input is
the per-algorithm list of `(filename, digest)` pairs in report order. -/

/-- One `forEach` step over `hashGroups`. -/
def addToHashGroups (groups : List (String × List String)) (hash filename : String) :
    List (String × List String) :=
  if (groups.filter (fun g => g.1 == hash)).isEmpty then
    groups ++ [(hash, [filename])]
  else
    groups.map (fun g => if g.1 == hash then (g.1, g.2 ++ [filename]) else g)

/-- The `hashGroups` object built by `compareMultipleFiles` for one
algorithm. -/
def hashGroups (results : List (String × String)) : List (String × List String) :=
  results.foldl (fun gs r => addToHashGroups gs r.2 r.1) []

/-- `allSame` (file-handler.js:483): exactly one distinct digest key. -/
def allSame (results : List (String × String)) : Bool :=
  (hashGroups results).length == 1

/-- Lookup of a digest's group, mirroring the object property access
`hashGroups[hash]`. -/
def findGroup (h : String) : List (String × List String) → Option (List String)
  | [] => none
  | g :: gs => if g.1 == h then some g.2 else findGroup h gs

/-- The distinct digests of the batch in first-seen order. -/
def firstSeenDigests (seen : List String) : List (String × String) → List String
  | [] => []
  | r :: rs =>
    if seen.contains r.2 then firstSeenDigests seen rs
    else r.2 :: firstSeenDigests (seen ++ [r.2]) rs

/-! ## Digest comparison (`compareHashes`, utils.js:197-200, and the Match
query `compareHash`, unnamed UI module) -/

/-- `String.prototype.toLowerCase` on one character, restricted to the ASCII
range (digest strings and the candidate inputs compared by the code are ASCII
hex, where the JS Unicode lowering coincides with the ASCII mapping). -/
def charLower (c : Char) : Char :=
  if 65 ≤ c.toNat ∧ c.toNat ≤ 90 then Char.ofNat (c.toNat + 32) else c

/-- `String.prototype.toLowerCase` for ASCII strings. -/
def jsToLower (s : String) : String :=
  String.mk (s.data.map charLower)

/-- `compareHashes` (utils.js:197-200): `if (!hash1 || !hash2) return false;`
(the empty string is the only falsy string) then case-insensitive equality via
`toLowerCase`. -/
def compareHashes (hash1 hash2 : String) : Bool :=
  if hash1 = "" ∨ hash2 = "" then false
  else jsToLower hash1 == jsToLower hash2

/-- The Match query of the UI module (`compareHash`): scan every report's
`(algorithm, digest)` entries and collect those whose digest matches the
candidate under `compareHashes`; a match is reported iff any entry matches. -/
def matchQueryFound (inputHash : String)
    (results : List (String × List (String × String))) : Bool :=
  results.any (fun r => r.2.any (fun e => compareHashes inputHash e.2))


/-- A computation in which `md5` succeeds and every other algorithm fails. -/
def computeDemo : String → Except String String := fun s =>
  if s = "md5" then .ok "900150983cd24fb0d6963f7d28e17f72" else .error "boom"

/-- How a group evolves over a batch suffix: the names of the suffix's
matching reports are appended to the group (which is created on first
sight). -/
def extendGroup : Option (List String) → List String → Option (List String)
  | some l, xs => some (l ++ xs)
  | none, xs => if xs.isEmpty then none else some xs

/-! ## Shared lemmas -/

/-- The counter update of `md5Update` is `count += data.length << 3`,
independent of the data contents and of the buffering branches. -/
theorem md5Update_count (st : MD5Ctx) (data : List Int) :
    (md5Update st data).count = st.count + jsShl (Int.ofNat data.length) 3 := rfl

/-- Counter after a sequence of `md5Update` calls: the 32-bit-shifted chunk
lengths accumulate. -/
theorem foldl_md5Update_count (chunks : List (List Int)) (st : MD5Ctx) :
    (List.foldl md5Update st chunks).count =
      st.count + (chunks.map (fun c => jsShl (Int.ofNat c.length) 3)).sum := by
  induction chunks generalizing st with
  | nil => simp
  | cons c cs ih =>
    rw [List.foldl_cons, ih, md5Update_count, List.map_cons, List.sum_cons, add_assoc]

/-- Flattening a replicated chunk list yields the replicated byte list. -/
theorem flatten_replicate_replicate (n m : Nat) (x : Int) :
    (List.replicate n (List.replicate m x)).flatten = List.replicate (n * m) x := by
  induction n with
  | zero => simp
  | succ k ih =>
    rw [List.replicate_succ, List.flatten_cons, ih]
    have h : (k + 1) * m = m + k * m := by ring
    rw [h, List.replicate_add]

/-- `md5Final` returns 16 digest bytes for any accumulator. -/
theorem md5Final_digest_length (st : MD5Ctx) : (md5Final st).1.length = 16 := by
  simp [md5Final]

/-! ## Claims -/

set_option maxRecDepth 400000 in
/-- C1: initializing an MD5 accumulator with `md5Init`, feeding it the empty
byte sequence, and finalizing yields the lowercase hex digest
`d41d8cd98f00b204e9800998ecf8427e`, and feeding it the three ASCII bytes of
"abc" yields `900150983cd24fb0d6963f7d28e17f72`. -/
theorem md5_known_vectors :
    md5Hex [] = "d41d8cd98f00b204e9800998ecf8427e" ∧
    md5Hex (asciiBytes "abc") = "900150983cd24fb0d6963f7d28e17f72" :=
  ⟨by decide, by decide⟩

set_option maxRecDepth 400000 in
/-- C6: the `hmac-md5` algorithm is supported, and computing it with key
"key" over "The quick brown fox jumps over the lazy dog" yields the lowercase
hex digest `80070713463e7749b90c2dc24911e275` (the platform keyed-digest
primitive is modelled from the spec, §4.4, instantiated with the repository's
MD5 engine). -/
theorem hmac_md5_known_vector :
    isAlgorithmSupported "hmac-md5" = true ∧
    hmacMd5Hex "key" "The quick brown fox jumps over the lazy dog" =
      "80070713463e7749b90c2dc24911e275" :=
  ⟨by decide, by decide⟩

/-- C9: the claim asserts the counter equals exactly `8·n` for a single
update of any `n` with `8·n` representable in 64 bits.  The code computes the
increment with the 32-bit shift `data.length << 3`, so a single `md5Update`
of `2^28` bytes sets the counter to `-2^31` although `8·2^28 = 2^31` fits
easily in 64 bits: the code contradicts the specified 64-bit counter. -/
theorem md5_count_overflow_single_update :
    (md5Update md5Init (List.replicate 268435456 (0 : Int))).count = -2147483648 ∧
    (8 : Int) * 268435456 = 2147483648 := by
  constructor
  · rw [md5Update_count]
    simp only [List.length_replicate, md5Init]
    decide
  · norm_num

/-- C2: the claim asserts digest equality for every way of splitting the
input.  For `2^29` zero bytes, the bit counter — and with it the final
length block that `md5Final` hashes — differs between a single `md5Update`
call (counter 0, by 32-bit overflow of `data.length << 3`) and the same
bytes fed as 8192 chunks of 65536 bytes (counter `2^32`, the true bit
count), so the resulting digests disagree: chunk-size invariance fails,
violating the spec's explicit streaming property. -/
theorem md5_chunk_divergence :
    (List.replicate 8192 (List.replicate 65536 (0 : Int))).flatten =
      List.replicate 536870912 (0 : Int) ∧
    (List.foldl md5Update md5Init
        (List.replicate 8192 (List.replicate 65536 (0 : Int)))).count = 4294967296 ∧
    (md5Update md5Init (List.replicate 536870912 (0 : Int))).count = 0 := by
  refine ⟨?_, ?_, ?_⟩
  · rw [flatten_replicate_replicate]
  · rw [foldl_md5Update_count]
    simp only [List.map_replicate, List.sum_replicate, List.length_replicate, md5Init,
      smul_eq_mul]
    decide
  · rw [md5Update_count]
    simp only [List.length_replicate, md5Init]
    decide

set_option maxRecDepth 400000 in
/-- C4 counterexample: on a fresh MD5 accumulator, `finalizeHash` succeeds,
and calling `finalizeHash` again on the accumulator it returns succeeds as
well, returning another 16-byte digest (a different one) instead of failing
with an `AlreadyFinalized` error. -/
theorem finalizeHash_twice_returns_digest :
    finalizeHash (fun _ _ => []) (HashObj.js md5Init) =
      .ok ((md5Final md5Init).1, HashObj.js (md5Final md5Init).2) ∧
    finalizeHash (fun _ _ => []) (HashObj.js (md5Final md5Init).2) =
      .ok ((md5Final (md5Final md5Init).2).1,
        HashObj.js (md5Final (md5Final md5Init).2).2) ∧
    (md5Final (md5Final md5Init).2).1.length = 16 ∧
    (md5Final (md5Final md5Init).2).1 ≠ (md5Final md5Init).1 :=
  ⟨rfl, rfl, md5Final_digest_length _, by decide⟩

/-- C4 amended: `finalizeHash` performs no already-finalized check — there is
no `AlreadyFinalized` error anywhere; on the js MD5 path every call (a second
one on an already-finalized accumulator included) succeeds and returns a
16-byte digest. -/
theorem finalizeHash_js_never_errors (cryptoDigest : String → List Int → List Int)
    (st : MD5Ctx) :
    finalizeHash cryptoDigest (HashObj.js st) =
      .ok ((md5Final st).1, HashObj.js (md5Final st).2) ∧
    (md5Final st).1.length = 16 :=
  ⟨rfl, md5Final_digest_length st⟩

/-- Result slot of any requested algorithm in `calculateMultipleHashes`:
determined solely by that algorithm's own `calculateHash` outcome. -/
theorem lookup_calculateMultipleHashes (compute : String → Except String String)
    (algorithms : List String) (a : String) (ha : a ∈ algorithms) :
    List.lookup a (calculateMultipleHashes compute algorithms) =
      some (match compute a with | .ok h => h | .error e => failureMarker e) := by
  induction algorithms with
  | nil => simp at ha
  | cons x xs ih =>
    by_cases hax : a = x
    · subst hax
      simp [calculateMultipleHashes, List.lookup]
    · rcases List.mem_cons.mp ha with h | h
      · exact absurd h hax
      · have hbx : (a == x) = false := beq_eq_false_iff_ne.mpr hax
        simpa [calculateMultipleHashes, List.lookup, hbx] using ih h

/-- C5: if one requested algorithm's computation fails, its result slot holds
the failure marker while every other requested algorithm's slot holds exactly
the digest its own computation produced — the failure is isolated. -/
theorem calculateMultipleHashes_isolation (compute : String → Except String String)
    (algorithms : List String) (a b : String)
    (ha : a ∈ algorithms) (hb : b ∈ algorithms) (digest err : String)
    (hok : compute a = .ok digest) (herr : compute b = .error err) :
    List.lookup a (calculateMultipleHashes compute algorithms) = some digest ∧
    List.lookup b (calculateMultipleHashes compute algorithms) =
      some (failureMarker err) := by
  constructor
  · rw [lookup_calculateMultipleHashes compute algorithms a ha, hok]
  · rw [lookup_calculateMultipleHashes compute algorithms b hb, herr]

/-- C5 witness: concrete two-algorithm request in which `sha1` fails. -/
theorem calculateMultipleHashes_isolation_witness :
    List.lookup "md5" (calculateMultipleHashes computeDemo ["md5", "sha1"]) =
      some "900150983cd24fb0d6963f7d28e17f72" ∧
    List.lookup "sha1" (calculateMultipleHashes computeDemo ["md5", "sha1"]) =
      some (failureMarker "boom") :=
  calculateMultipleHashes_isolation computeDemo ["md5", "sha1"] "md5" "sha1"
    (by simp) (by simp) _ _ (by simp [computeDemo]) (by simp [computeDemo])

/-- Every read issued by the chunk loop from a positive offset stays at a
positive offset. -/
theorem readLoop_fst_pos : ∀ (fuel size chunk offset : Nat), 0 < offset →
    ∀ r ∈ readLoop fuel size chunk offset, 0 < r.1 := by
  intro fuel
  induction fuel with
  | zero => intro size chunk offset h r hr; simp [readLoop] at hr
  | succ f ih =>
    intro size chunk offset h r hr
    simp only [readLoop, List.mem_cons] at hr
    rcases hr with rfl | hr
    · exact h
    · by_cases hlt : offset + min chunk (size - offset) < size
      · rw [if_pos hlt] at hr
        exact ih size chunk _ (by omega) r hr
      · rw [if_neg hlt] at hr
        simp at hr

/-- One `calculateHash` call issues exactly one read at offset 0. -/
theorem calculateHashReads_one_zero (size chunk : Nat) (hc : 0 < chunk) :
    ((calculateHashReads size chunk).filter (fun r => r.1 == 0)).length = 1 := by
  unfold calculateHashReads
  by_cases hsz : size ≤ chunk
  · rw [if_pos hsz]; rfl
  · rw [if_neg hsz]
    push_neg at hsz
    obtain ⟨n, rfl⟩ : ∃ n, size = n + 1 := ⟨size - 1, by omega⟩
    rw [readLoop]
    have hcond : 0 + min chunk (n + 1 - 0) < n + 1 := by
      have := Nat.min_le_left chunk (n + 1 - 0)
      omega
    rw [if_pos hcond]
    have hofs : 0 < 0 + min chunk (n + 1 - 0) := by
      have : 0 < min chunk (n + 1 - 0) := lt_min hc (by omega)
      omega
    have hrest : (readLoop n (n + 1) chunk (0 + min chunk (n + 1 - 0))).filter
        (fun r => r.1 == 0) = [] := by
      rw [List.filter_eq_nil_iff]
      intro r hr
      have hpos : 0 < r.1 := readLoop_fst_pos n (n + 1) chunk _ hofs r hr
      simp only [beq_iff_eq]
      omega
    rw [List.filter_cons, if_pos (show (((0 : Nat), min chunk (n + 1 - 0)).1 == 0) = true
      from rfl), List.length_cons, hrest]
    rfl

/-- Filtering zero-offset reads commutes with tagging reads by algorithm. -/
theorem filter_zero_tagged (a : String) (l : List (Nat × Nat)) :
    ((l.map (fun r => (a, r))).filter (fun x => x.2.1 == 0)).length =
      (l.filter (fun r => r.1 == 0)).length := by
  rw [List.filter_map, List.length_map]
  rfl

/-- C3 counterexample: for a 128-byte input at chunk size 64 and the two
requested algorithms `md5` and `sha256`, the trace reads the whole input once
per algorithm — two chunked traversals, not one, and the second algorithm's
reads all happen after the first algorithm has consumed the entire input. -/
theorem multiHashReads_two_traversals :
    multiHashReads ["md5", "sha256"] 128 64 =
      [("md5", 0, 64), ("md5", 64, 64), ("sha256", 0, 64), ("sha256", 64, 64)] ∧
    traversalCount (multiHashReads ["md5", "sha256"] 128 64) = 2 ∧
    traversalCount (multiHashReads ["md5", "sha256"] 128 64) ≠ 1 := by
  refine ⟨by decide, by decide, by decide⟩

/-- C3 amended: `calculateMultipleHashes` performs one complete chunked
traversal of the input per requested (supported) algorithm, the algorithms
one after another in request order: the trace contains exactly
`algorithms.length` traversal starts. -/
theorem multiHashReads_once_per_algorithm (algorithms : List String)
    (size chunk : Nat) (hc : 0 < chunk)
    (hs : ∀ a ∈ algorithms, isAlgorithmSupported a = true) :
    traversalCount (multiHashReads algorithms size chunk) = algorithms.length := by
  induction algorithms with
  | nil => rfl
  | cons a as ih =>
    have hsa : isAlgorithmSupported a = true := hs a (List.mem_cons_self a as)
    unfold traversalCount multiHashReads
    rw [List.flatMap_cons, List.filter_append, List.length_append, if_pos hsa]
    rw [filter_zero_tagged, calculateHashReads_one_zero size chunk hc]
    have := ih (fun x hx => hs x (List.mem_cons_of_mem a hx))
    unfold traversalCount multiHashReads at this
    rw [this, List.length_cons, Nat.add_comm]

/-- C3 witness: one supported algorithm, one-byte input, chunk size 1. -/
theorem multiHashReads_once_witness :
    traversalCount (multiHashReads ["md5"] 1 1) = (["md5"] : List String).length :=
  multiHashReads_once_per_algorithm ["md5"] 1 1 (by decide) (by decide)

/-- Invariant of the large-input progress loop: starting strictly below
`size` with enough fuel, the emitted `processed` values are non-decreasing
(from the current position), reach `size` exactly once, and end at `size`. -/
theorem progressAux_spec (size chunk : Nat) (hc : 0 < chunk) :
    ∀ (fuel processed : Nat), processed < size → size ≤ processed + fuel →
      List.Chain' (fun a b => a ≤ b) (processed :: progressAux fuel processed size chunk) ∧
      ((progressAux fuel processed size chunk).filter (fun p => p == size)).length = 1 ∧
      (progressAux fuel processed size chunk).getLast? = some size := by
  intro fuel
  induction fuel with
  | zero => intro processed h1 h2; omega
  | succ f ih =>
    intro processed h1 h2
    rw [progressAux]
    by_cases hps : processed + min chunk (size - processed) < size
    · obtain ⟨ihc, ihf, ihl⟩ := ih (processed + min chunk (size - processed)) hps (by omega)
      rw [if_pos hps]
      refine ⟨?_, ?_, ?_⟩
      · exact List.chain'_cons.mpr ⟨Nat.le_add_right _ _, ihc⟩
      · rw [List.filter_cons,
          if_neg (by simp only [beq_iff_eq]; omega), ihf]
      · have hne : progressAux f (processed + min chunk (size - processed)) size chunk ≠ [] := by
          intro hnil
          rw [hnil] at ihl
          simp at ihl
        obtain ⟨y, ys, hys⟩ := List.exists_cons_of_ne_nil hne
        rw [hys] at ihl ⊢
        rw [List.getLast?_cons_cons]
        exact ihl
    · have hmin : min chunk (size - processed) ≤ size - processed := Nat.min_le_right _ _
      have hpeq : processed + min chunk (size - processed) = size := by omega
      rw [if_neg hps, hpeq]
      refine ⟨?_, by simp, rfl⟩
      exact List.chain'_cons.mpr ⟨by omega, List.chain'_singleton _⟩

/-- C8: across one `calculateHash` traversal the `processed` values delivered
to the progress callback are monotonically non-decreasing, equal the input
size exactly once, and that occurrence is the final event. -/
theorem progress_monotone_and_final (size chunk : Nat) (hc : 0 < chunk) :
    List.Chain' (fun a b => a ≤ b) (progressEvents size chunk) ∧
    ((progressEvents size chunk).filter (fun p => p == size)).length = 1 ∧
    (progressEvents size chunk).getLast? = some size := by
  unfold progressEvents
  by_cases hsz : size ≤ chunk
  · rw [if_pos hsz]
    exact ⟨List.chain'_singleton _, by simp, rfl⟩
  · rw [if_neg hsz]
    have h := progressAux_spec size chunk hc size 0 (by omega) (by omega)
    exact ⟨h.1.tail, h.2.1, h.2.2⟩

/-- C8 witness: a 5-byte input at chunk size 2 (events 2, 4, 5). -/
theorem progress_monotone_witness :
    List.Chain' (fun a b => a ≤ b) (progressEvents 5 2) ∧
    ((progressEvents 5 2).filter (fun p => p == 5)).length = 1 ∧
    (progressEvents 5 2).getLast? = some 5 :=
  progress_monotone_and_final 5 2 (by decide)

/-- C10: `compareHashes` returns `false` whenever either argument is the
empty string — two equal empty strings included — and therefore the Match
query with an empty candidate digest never reports a match against any
stored results. -/
theorem compareHashes_empty_never_matches :
    (∀ hash1 hash2 : String, hash1 = "" ∨ hash2 = "" →
      compareHashes hash1 hash2 = false) ∧
    ∀ results, matchQueryFound "" results = false := by
  constructor
  · intro h1 h2 h
    unfold compareHashes
    rw [if_pos h]
  · intro results
    unfold matchQueryFound
    simp [compareHashes]

/-- C10 witness: two equal empty digests compare as non-matching. -/
theorem compareHashes_empty_witness : compareHashes "" "" = false :=
  compareHashes_empty_never_matches.1 "" "" (Or.inl rfl)

/-- One unfolding step of `findGroup`. -/
theorem findGroup_cons (h : String) (g : String × List String)
    (gs : List (String × List String)) :
    findGroup h (g :: gs) = if g.1 == h then some g.2 else findGroup h gs := rfl

theorem findGroup_append (h : String) (gs gs2 : List (String × List String)) :
    findGroup h (gs ++ gs2) =
      match findGroup h gs with
      | some l => some l
      | none => findGroup h gs2 := by
  induction gs with
  | nil => simp [findGroup]
  | cons g gs ih =>
    by_cases hg : g.1 = h
    · simp [findGroup_cons, hg]
    · have hb : (g.1 == h) = false := beq_eq_false_iff_ne.mpr hg
      simp [findGroup_cons, hb, ih]

theorem filter_isEmpty_iff_findGroup_none (h : String)
    (gs : List (String × List String)) :
    (gs.filter (fun g => g.1 == h)).isEmpty = true ↔ findGroup h gs = none := by
  induction gs with
  | nil => simp [findGroup]
  | cons g gs ih =>
    by_cases hg : g.1 = h
    · simp [findGroup_cons, List.filter_cons, hg]
    · have hb : (g.1 == h) = false := beq_eq_false_iff_ne.mpr hg
      simp [findGroup_cons, List.filter_cons, hb, ih]

theorem findGroup_map_update (h n hq : String) (gs : List (String × List String)) :
    findGroup hq (gs.map (fun g => if g.1 == h then (g.1, g.2 ++ [n]) else g)) =
      if hq = h then (findGroup h gs).map (fun l => l ++ [n]) else findGroup hq gs := by
  induction gs with
  | nil => by_cases hqh : hq = h <;> simp [findGroup, hqh]
  | cons g gs ih =>
    simp only [beq_iff_eq] at ih
    by_cases hgh : g.1 = h
    · by_cases hgq : g.1 = hq
      · have hqh : hq = h := by rw [← hgq, hgh]
        subst hqh
        simp [List.map_cons, findGroup_cons, hgq]
      · have hqh : ¬hq = h := fun e => hgq (by rw [hgh, e])
        have hhq : ¬h = hq := fun e => hqh e.symm
        simp [List.map_cons, findGroup_cons, hgh, hgq, hqh, hhq, ih]
    · by_cases hgq : g.1 = hq
      · have hqh : ¬hq = h := fun e => hgh (by rw [hgq, e])
        simp [List.map_cons, findGroup_cons, hgh, hgq, hqh]
      · simp [List.map_cons, findGroup_cons, hgh, hgq, ih]

theorem findGroup_addToHashGroups (gs : List (String × List String)) (h n hq : String) :
    findGroup hq (addToHashGroups gs h n) =
      if hq = h then some ((findGroup h gs).getD [] ++ [n]) else findGroup hq gs := by
  unfold addToHashGroups
  by_cases hfe : (gs.filter (fun g => g.1 == h)).isEmpty = true
  · have hnone := (filter_isEmpty_iff_findGroup_none h gs).mp hfe
    rw [if_pos hfe, findGroup_append]
    by_cases hqh : hq = h
    · subst hqh
      rw [hnone]
      simp [findGroup_cons, hnone]
    · have hbq : (h == hq) = false := beq_eq_false_iff_ne.mpr (fun he => hqh he.symm)
      cases hfg : findGroup hq gs with
      | some l => simp [hfg, hqh]
      | none => simp [hfg, hqh, findGroup_cons, hbq, findGroup]
  · rw [if_neg hfe, findGroup_map_update]
    by_cases hqh : hq = h
    · subst hqh
      have hsome : findGroup hq gs ≠ none := fun hn =>
        hfe ((filter_isEmpty_iff_findGroup_none hq gs).mpr hn)
      obtain ⟨l, hl⟩ := Option.ne_none_iff_exists'.mp hsome
      simp [hl]
    · simp [hqh]

theorem keys_addToHashGroups (gs : List (String × List String)) (h n : String) :
    (addToHashGroups gs h n).map Prod.fst =
      if findGroup h gs = none then gs.map Prod.fst ++ [h] else gs.map Prod.fst := by
  unfold addToHashGroups
  by_cases hfe : (gs.filter (fun g => g.1 == h)).isEmpty = true
  · have hnone := (filter_isEmpty_iff_findGroup_none h gs).mp hfe
    rw [if_pos hfe, if_pos hnone, List.map_append]
    rfl
  · have hnn : ¬findGroup h gs = none := fun hn =>
      hfe ((filter_isEmpty_iff_findGroup_none h gs).mpr hn)
    rw [if_neg hfe, if_neg hnn, List.map_map]
    refine List.map_congr_left (fun g hg => ?_)
    by_cases hgh : g.1 = h <;> simp [Function.comp, hgh]

theorem hashGroups_loop_lookup (results : List (String × String)) :
    ∀ (gs : List (String × List String)) (h : String),
      findGroup h (results.foldl (fun gs r => addToHashGroups gs r.2 r.1) gs) =
        extendGroup (findGroup h gs)
          ((results.filter (fun r => r.2 == h)).map Prod.fst) := by
  induction results with
  | nil =>
    intro gs h
    cases hfg : findGroup h gs <;> simp [extendGroup, hfg]
  | cons r rs ih =>
    intro gs h
    rw [List.foldl_cons, ih, findGroup_addToHashGroups]
    by_cases hrh : r.2 = h
    · have hb : (r.2 == h) = true := beq_iff_eq.mpr hrh
      rw [List.filter_cons, hb, if_pos rfl]
      subst hrh
      cases hfg : findGroup r.2 gs with
      | some l => simp [extendGroup, hfg]
      | none => simp [extendGroup, hfg]
    · have hb : (r.2 == h) = false := beq_eq_false_iff_ne.mpr hrh
      have hhr : ¬h = r.2 := fun he => hrh he.symm
      rw [List.filter_cons, hb, if_neg hhr]
      simp

/-- A digest occurs among the group keys iff `findGroup` finds it. -/
theorem contains_keys_iff_findGroup (h : String) (gs : List (String × List String)) :
    (gs.map Prod.fst).contains h = true ↔ ¬findGroup h gs = none := by
  induction gs with
  | nil => simp [findGroup]
  | cons g gs ih =>
    by_cases hg : g.1 = h
    · simp [findGroup_cons, hg]
    · have hgs : ¬h = g.1 := fun e => hg e.symm
      have hb : (g.1 == h) = false := beq_eq_false_iff_ne.mpr hg
      have hb2 : (h == g.1) = false := beq_eq_false_iff_ne.mpr hgs
      rw [List.map_cons, List.contains_cons, hb2, Bool.false_or, findGroup_cons, hb,
        if_neg Bool.false_ne_true]
      exact ih

/-- One unfolding step of `firstSeenDigests`. -/
theorem firstSeenDigests_cons (seen : List String) (r : String × String)
    (rs : List (String × String)) :
    firstSeenDigests seen (r :: rs) =
      if seen.contains r.2 then firstSeenDigests seen rs
      else r.2 :: firstSeenDigests (seen ++ [r.2]) rs := rfl

/-- Keys of the grouping loop: the keys already present followed by the
digests of the batch suffix in first-seen order. -/
theorem hashGroups_loop_keys (results : List (String × String)) :
    ∀ (gs : List (String × List String)),
      (results.foldl (fun gs r => addToHashGroups gs r.2 r.1) gs).map Prod.fst =
        gs.map Prod.fst ++ firstSeenDigests (gs.map Prod.fst) results := by
  induction results with
  | nil => intro gs; simp [firstSeenDigests]
  | cons r rs ih =>
    intro gs
    rw [List.foldl_cons, ih, keys_addToHashGroups, firstSeenDigests_cons]
    by_cases hfind : findGroup r.2 gs = none
    · have hc : (gs.map Prod.fst).contains r.2 = false := by
        rw [← Bool.not_eq_true]
        intro hct
        exact (contains_keys_iff_findGroup r.2 gs).mp hct hfind
      rw [if_pos hfind, hc, if_neg Bool.false_ne_true]
      simp
    · have hc : (gs.map Prod.fst).contains r.2 = true :=
        (contains_keys_iff_findGroup r.2 gs).mpr hfind
      rw [if_neg hfind, hc, if_pos rfl]

/-- The first-seen digest list is empty iff every digest was already seen. -/
theorem firstSeenDigests_eq_nil_iff (results : List (String × String)) :
    ∀ seen : List String,
      (firstSeenDigests seen results = [] ↔
        ∀ r ∈ results, seen.contains r.2 = true) := by
  induction results with
  | nil => intro seen; simp [firstSeenDigests]
  | cons r rs ih =>
    intro seen
    rw [firstSeenDigests_cons]
    by_cases hc : seen.contains r.2 = true
    · rw [if_pos hc]
      simp only [List.mem_cons]
      constructor
      · intro hnil x hx
        rcases hx with rfl | hx
        · exact hc
        · exact (ih seen).mp hnil x hx
      · intro hall
        exact (ih seen).mpr (fun x hx => hall x (Or.inr hx))
    · rw [if_neg hc]
      simp only [List.mem_cons]
      constructor
      · intro hnil
        exact absurd hnil (List.cons_ne_nil _ _)
      · intro hall
        exact absurd (hall r (Or.inl rfl)) hc

/-- C7 counterexample: two reports whose digests differ only in letter case
("ab" vs "AB") are placed in two different groups, and the two-report batch
is not declared all-identical, although the claim requires case-insensitive
grouping to put them in the same single group. -/
theorem hashGroups_case_sensitive :
    hashGroups [("a.txt", "ab"), ("b.txt", "AB")] =
      [("ab", ["a.txt"]), ("AB", ["b.txt"])] ∧
    (hashGroups [("a.txt", "ab"), ("b.txt", "AB")]).length = 2 ∧
    allSame [("a.txt", "ab"), ("b.txt", "AB")] = false ∧
    jsToLower "ab" = jsToLower "AB" :=
  ⟨by decide, by decide, by decide, by decide⟩

/-- C7 amended: the Group operation partitions the batch by exact,
case-sensitive digest string equality — each digest's group collects, in
report order, exactly the names of the reports carrying that very digest
string; the distinct digest strings appear in first-seen order; and a batch
is declared all-identical exactly when all reports carry one identical
digest string. -/
theorem hashGroups_exact_partition (results : List (String × String)) :
    (∀ h, findGroup h (hashGroups results) =
      if (results.filter (fun r => r.2 == h)).isEmpty then none
      else some ((results.filter (fun r => r.2 == h)).map Prod.fst)) ∧
    (hashGroups results).map Prod.fst = firstSeenDigests [] results ∧
    (results ≠ [] →
      (allSame results = true ↔ ∀ r ∈ results, r.2 = (results.headD ("", "")).2)) := by
  refine ⟨?_, ?_, ?_⟩
  · intro h
    unfold hashGroups
    rw [hashGroups_loop_lookup]
    cases hf : results.filter (fun r => r.2 == h) with
    | nil => simp [findGroup, extendGroup, hf]
    | cons x xs => simp [findGroup, extendGroup, hf]
  · have h := hashGroups_loop_keys results []
    unfold hashGroups
    simpa using h
  · intro hne
    obtain ⟨r, tl, rfl⟩ := List.exists_cons_of_ne_nil hne
    unfold allSame
    rw [beq_iff_eq]
    have hmap : (hashGroups (r :: tl)).map Prod.fst = firstSeenDigests [] (r :: tl) := by
      have h1 := hashGroups_loop_keys (r :: tl) []
      unfold hashGroups
      simpa using h1
    have hkeys : (hashGroups (r :: tl)).length = (firstSeenDigests [] (r :: tl)).length := by
      rw [← hmap, List.length_map]
    rw [hkeys, firstSeenDigests_cons,
      if_neg (by simp)]
    rw [List.length_cons]
    constructor
    · intro hlen x hx
      have hnil : firstSeenDigests ([] ++ [r.2]) tl = [] := by
        have : (firstSeenDigests ([] ++ [r.2]) tl).length = 0 := by omega
        exact List.length_eq_zero.mp this
      have hall := (firstSeenDigests_eq_nil_iff tl ([] ++ [r.2])).mp hnil
      rcases List.mem_cons.mp hx with rfl | hx
      · rfl
      · have hcx := hall x hx
        simp at hcx
        simpa using hcx
    · intro hall
      have hnil : firstSeenDigests ([] ++ [r.2]) tl = [] := by
        refine (firstSeenDigests_eq_nil_iff tl ([] ++ [r.2])).mpr (fun x hx => ?_)
        have := hall x (List.mem_cons_of_mem r hx)
        simp at this ⊢
        simpa using this
      rw [hnil]
      rfl

/-- C7 witness: a two-report batch with one identical digest string is
declared all-identical. -/
theorem hashGroups_partition_witness :
    allSame [("a", "x"), ("b", "x")] = true :=
  ((hashGroups_exact_partition [("a", "x"), ("b", "x")]).2.2 (by decide)).mpr (by decide)
